import Mathlib

/-!
Verification of the provider / registry / cache subsystem of the
claude-prompt-cli repository.

The definitions below are a shallow embedding of the JavaScript sources:
  - src/lib/providers/registry.js       (ProviderRegistry)
  - src/lib/providers/base-provider.js  (BaseProvider: rate limits, usage)
  - src/lib/providers/huggingface.js    (HuggingFaceProvider: cache, complete)
  - src/lib/template-utils.js           (OllamaProvider.complete)
  - src/lib/ai-enhancer.js              (AIEnhancer cache dispose handler)
Time is modelled in milliseconds as Nat; JavaScript exceptions are modelled
with Except; the lru-cache library is modelled as a recency-ordered
association list (most recently used first) with a max size, a ttl, and an
optional eviction (dispose) result.
-/

namespace CPC

/-! ## The lru-cache model (lru-cache npm package, as configured by the repo) -/

/-- A cache line: key, value, and the wall-clock instant it was stored. -/
structure CacheLine (κ ν : Type) where
  key : κ
  value : ν
  storedAt : Nat
  deriving DecidableEq, Repr

/-- In-memory LRU cache: recency-ordered list, most recently used first. -/
structure LRU (κ ν : Type) where
  entries : List (CacheLine κ ν)
  deriving DecidableEq, Repr

/-- The empty cache (`new LRUCache({...})`). -/
def LRU.empty (κ ν : Type) : LRU κ ν := ⟨[]⟩

/-- The 24-hour ttl used by both caches, in milliseconds. -/
def ttl24 : Nat := 1000 * 60 * 60 * 24

variable {κ ν : Type} [DecidableEq κ] [DecidableEq ν]

/-- Keys currently present, in recency order. -/
def LRU.keys (c : LRU κ ν) : List κ := c.entries.map (·.key)

/-- Model of `cache.get(key)` at instant `now`: an un-expired entry is returned and
moved to the front (most recently used); an expired or absent entry is a
miss (an expired entry is removed). Does not refresh the stored instant. -/
def LRU.get (c : LRU κ ν) (ttl : Nat) (k : κ) (now : Nat) :
    LRU κ ν × Option ν :=
  match c.entries.find? (·.key = k) with
  | none => (c, none)
  | some e =>
      if now < e.storedAt + ttl then
        (⟨e :: c.entries.filter (·.key ≠ k)⟩, some e.value)
      else
        (⟨c.entries.filter (·.key ≠ k)⟩, none)

/-- Model of `cache.set(key, value)` at instant `now` with capacity `max`:
inserts/replaces at the most-recently-used position; when the capacity is
exceeded the least-recently-used line is evicted and returned (the value
handed to a dispose callback when one is configured). -/
def LRU.set (c : LRU κ ν) (max : Nat) (k : κ) (v : ν) (now : Nat) :
    LRU κ ν × Option (CacheLine κ ν) :=
  let l := CacheLine.mk k v now :: c.entries.filter (·.key ≠ k)
  if l.length > max then
    (⟨l.dropLast⟩, l.getLast?)
  else
    (⟨l⟩, none)

/-- Un-expired entries at instant `now`, in recency order
(`cache.entries()` iteration skips stale lines). -/
def LRU.valid (c : LRU κ ν) (ttl now : Nat) : List (CacheLine κ ν) :=
  c.entries.filter (fun e => now < e.storedAt + ttl)

/-! ## Disk cache file (`cache-data.json`) -/

/-- An on-disk record `{value, expires}`. -/
structure DiskEntry (ν : Type) where
  value : ν
  expires : Nat
  deriving DecidableEq, Repr

/-- The parsed disk file: an association list of key/record pairs
(a JSON object, so keys are distinct); `none` models a missing or
unparsable (corrupt) file. -/
abbrev Disk (κ ν : Type) := Option (List (κ × DiskEntry ν))

/-! ## BaseProvider: usage counters and rate limits
(src/lib/providers/base-provider.js) -/

/-- State `this.usage` of BaseProvider. -/
structure Usage where
  requests : Nat
  tokens : Nat
  lastReset : Nat
  deriving DecidableEq, Repr

/-- One hour in milliseconds (the reset window of `checkRateLimits`). -/
def hourMs : Nat := 3600000

/-- Model of `BaseProvider.checkRateLimits` at instant `now` with hourly budget
`rph`: zeroes the counters and stamps `lastReset := now` when strictly
more than one hour has elapsed, then throws when the (possibly reset)
request counter has reached the hourly budget. Returns the updated usage
and the thrown message, if any. -/
def checkRateLimits (rph : Nat) (u : Usage) (now : Nat) :
    Usage × Option String :=
  let u' := if now - u.lastReset > hourMs then Usage.mk 0 0 now else u
  if u'.requests ≥ rph then
    (u', some ("Rate limit exceeded: " ++ toString rph ++ " requests per hour"))
  else
    (u', none)

/-- Model of `BaseProvider.trackUsage(tokens)`: increments the request counter by one
and the token counter by `tokens`. It takes no clock and performs no reset. -/
def trackUsage (u : Usage) (tokens : Nat) : Usage :=
  Usage.mk (u.requests + 1) (u.tokens + tokens) u.lastReset

/-- Model of `BaseProvider.estimateTokens`: `Math.ceil(text.length / 4)`. -/
def estimateTokens (text : String) : Nat := (text.length + 3) / 4

/-! ## ProviderRegistry (src/lib/providers/registry.js)

Providers are abstract values of a type `α`; the registry keeps a JS `Map`
(insertion-ordered association list with distinct keys) and an optional
default name. An operation handed to `executeWithFallback` is a function
`α → Except String β` (a throw is `Except.error` carrying the message). -/

/-- JS `Map.set` semantics: replace in place when the key exists, else append. -/
def mapSet {α : Type} (l : List (String × α)) (k : String) (v : α) :
    List (String × α) :=
  if l.any (·.1 = k) then
    l.map (fun p => if p.1 = k then (k, v) else p)
  else
    l ++ [(k, v)]

/-- Registry state: `this.providers` (insertion order = registration order)
and `this.defaultProvider`. -/
structure Registry (α : Type) where
  providers : List (String × α)
  defaultProvider : Option String
  deriving Repr

/-- The freshly constructed registry (before any registration). -/
def Registry.init (α : Type) : Registry α := ⟨[], none⟩

/-- Lookup `this.providers.get(name)` (first — and with distinct keys, the only —
binding of the name). -/
def Registry.findProvider {α : Type} (r : Registry α) (n : String) :
    Option α :=
  (r.providers.find? (·.1 = n)).map (·.2)

/-- Model of `registerProvider(name, ProviderClass)`: `new ProviderClass(config)` is
modelled by its outcome `ctor` (`none` = the constructor threw). A throw is
caught and logged, leaving the registry unchanged; on success the provider
is stored and becomes the default when no default is set yet. -/
def Registry.registerProvider {α : Type} (r : Registry α) (name : String)
    (ctor : Option α) : Registry α :=
  match ctor with
  | none => r
  | some p =>
      { providers := mapSet r.providers name p
        defaultProvider :=
          match r.defaultProvider with
          | none => some name
          | some d => some d }

/-- Model of `setDefaultProvider(name)`: throws without touching any state when the
name is not registered. -/
def Registry.setDefault {α : Type} (r : Registry α) (name : String) :
    Except String (Registry α) :=
  if r.providers.any (·.1 = name) then
    Except.ok { r with defaultProvider := some name }
  else
    Except.error ("Provider \x27" ++ name ++ "\x27 not found")

/-- A registry mutation: a registration or a default selection. -/
inductive RegOp (α : Type) where
  | register (name : String) (ctor : Option α)
  | setDefault (name : String)

/-- Apply one mutation; a thrown `setDefaultProvider` leaves the state as is. -/
def Registry.applyOp {α : Type} (r : Registry α) : RegOp α → Registry α
  | RegOp.register n c => r.registerProvider n c
  | RegOp.setDefault n =>
      match r.setDefault n with
      | Except.ok r' => r'
      | Except.error _ => r

/-- Run a sequence of mutations from the fresh registry. -/
def Registry.run {α : Type} (ops : List (RegOp α)) : Registry α :=
  ops.foldl Registry.applyOp (Registry.init α)

/-- The registry invariant of the spec: a set default names a registered
provider; registry keys are distinct (JS `Map`). -/
def Registry.Inv {α : Type} (r : Registry α) : Prop :=
  (∀ d, r.defaultProvider = some d → d ∈ r.providers.map (·.1)) ∧
  (r.providers.map (·.1)).Nodup

/-- Resolution `options.provider || this.defaultProvider` (an empty string is falsy). -/
def Registry.resolvePreferred {α : Type} (r : Registry α)
    (pref : Option String) : Option String :=
  match pref with
  | some n => if n = "" then r.defaultProvider else some n
  | none => r.defaultProvider

/-- The fallback loop of `executeWithFallback`: walk the registered
providers in registration order, skipping `skip` (the name already tried),
accumulating `(name, message)` failure records; return the first success,
else throw the accumulated aggregate. The second component is the `errors`
array at the instant the call returns. -/
def fallbackLoop {α β : Type} (op : α → Except String β)
    (skip : Option String) (errs : List (String × String)) :
    List (String × α) →
    Except (List (String × String)) β × List (String × String)
  | [] => (Except.error errs, errs)
  | (n, p) :: rest =>
      if skip = some n then fallbackLoop op skip errs rest
      else
        match op p with
        | Except.ok b => (Except.ok b, errs)
        | Except.error e => fallbackLoop op skip (errs ++ [(n, e)]) rest

/-- Message thrown by `getProvider(name)` when the name is absent. -/
def providerNotFoundMsg (r : Registry String) (n : String) : String :=
  "Provider \x27" ++ n ++ "\x27 not found. Available providers: " ++
    String.intercalate ", " (r.providers.map (·.1))

/-- Model of `executeWithFallback(operation, options)`: try the preferred provider
(or the current default) first — a `getProvider` throw for an unregistered
preferred name is caught and recorded like any other failure — then fall
back to every other registered provider in registration order. Returns the
result together with the internally recorded failure list. -/
def Registry.executeWithFallback {α β : Type} (r : Registry α)
    (op : α → Except String β) (pref : Option String)
    (notFound : String → String) :
    Except (List (String × String)) β × List (String × String) :=
  match r.resolvePreferred pref with
  | none => fallbackLoop op none [] r.providers
  | some n =>
      match r.findProvider n with
      | none => fallbackLoop op (some n) [(n, notFound n)] r.providers
      | some p =>
          match op p with
          | Except.ok b => (Except.ok b, [])
          | Except.error e => fallbackLoop op (some n) [(n, e)] r.providers

/-- Specification-side fold: try the given providers in the given order,
return the first success, collect one failure record per failed provider,
and throw the full list when all fail. (Used to state the refinement in C1;
written from the description of the fallback semantics in the spec.) -/
def firstSuccess {α β : Type} (op : α → Except String β) :
    List (String × α) →
    Except (List (String × String)) β × List (String × String)
  | [] => (Except.error [], [])
  | (n, p) :: rest =>
      match op p with
      | Except.ok b => (Except.ok b, [])
      | Except.error e =>
          match firstSuccess op rest with
          | (Except.ok b, es) => (Except.ok b, (n, e) :: es)
          | (Except.error es, _) => (Except.error ((n, e) :: es), (n, e) :: es)

/-! ## HuggingFaceProvider (src/lib/providers/huggingface.js) -/

/-- Evaluation of `config.apiKey || process.env.HF_TOKEN` followed by the
only credential check of the constructor, `if (!this.apiKey) throw ...`:
construction fails exactly when the resulting key is missing/empty. The
shape of the key is not examined here. -/
def hfCtorApiKey (configApiKey : Option String) (envToken : Option String) :
    Except String String :=
  let key :=
    match configApiKey with
    | some k => if k = "" then envToken.getD "" else k
    | none => envToken.getD ""
  if key = "" then
    Except.error "HuggingFace API key not found. Set HF_TOKEN environment variable."
  else
    Except.ok key

/-- Test whether the second list starts with the first one (character-level
model of the JS `String.startsWith` / the head test of `String.includes`). -/
def listHasHead {α : Type} [DecidableEq α] : List α → List α → Bool
  | [], _ => true
  | _ :: _, [] => false
  | a :: as, b :: bs => a = b && listHasHead as bs

/-- Model of the JS `s.startsWith(p)`. -/
def jsStartsWith (s p : String) : Bool := listHasHead p.data s.data

/-- The credential-shape check of `HuggingFaceProvider.initialize`:
`if (!this.apiKey.startsWith(hf_) || this.apiKey.length < 20) throw`
(the required head is the three characters hf underscore).
It precedes the cache-directory creation and no network call is made. -/
def hfInitCheck (apiKey : String) : Except String Unit :=
  if jsStartsWith apiKey "hf_" = false ∨ apiKey.length < 20 then
    Except.error "Invalid HuggingFace API key format"
  else
    Except.ok ()

/-- One tier of `this.models` (id, token ceiling, advertised rate limit). -/
structure HFModel where
  id : String
  maxTokens : Nat
  rateLimit : Nat
  deriving DecidableEq, Repr

/-- The fixed tier table of the HuggingFace provider. -/
def hfModels : String → Option HFModel
  | "fast" => some ⟨"google/flan-t5-xl", 512, 5000⟩
  | "balanced" => some ⟨"mistralai/Mixtral-8x7B-Instruct-v0.1", 1024, 2000⟩
  | "deep" => some ⟨"meta-llama/Llama-2-70b-chat-hf", 1500, 500⟩
  | _ => none

/-- Generation options of `complete` that the model observes. Temperature
is a JS number with one decimal digit in this code base; it is modelled
exactly, in tenths (so 7 stands for 0.7), keeping arithmetic in Nat. -/
structure HFOptions where
  modelTier : Option String
  maxTokens : Option Nat
  temperature : Option Nat
  noCache : Bool
  deriving DecidableEq, Repr

/-- Semantics of `x || d` on a JS number: `0` (and absence) are falsy. -/
def jsNumOr (o : Option Nat) (d : Nat) : Nat :=
  match o with
  | some t => if t = 0 then d else t
  | none => d

/-- The cache key record of `getCacheKey`: the first 100 characters of the
prompt, the model id, `options.temperature || 0.7` (in tenths), and
`options.maxTokens` (absent when undefined, as `JSON.stringify` drops
undefined fields). Two keys collide exactly when these four fields agree. -/
structure HFKey where
  promptHead : String
  model : String
  temperature : Nat
  maxTokens : Option Nat
  deriving DecidableEq, Repr

/-- Model of `HuggingFaceProvider.getCacheKey(prompt, model, options)`. -/
def getCacheKey (prompt : String) (model : String) (opts : HFOptions) : HFKey :=
  ⟨prompt.take 100, model, jsNumOr opts.temperature 7, opts.maxTokens⟩

/-- Capacity of the provider-layer cache (`new LRUCache({ max: 1000, ... })`,
with no dispose callback configured). -/
def hfCacheMax : Nat := 1000

/-- Hourly request budget of the provider: inherited unchanged from
`BaseProvider` (`requestsPerHour: 1000`). -/
def hfRequestsPerHour : Nat := 1000

/-- A thrown JS error as seen by `formatError`: message plus optional
code/status. -/
structure JsError where
  message : String
  code : Option String
  deriving DecidableEq, Repr

/-- Model of `BaseProvider.formatError`: map transport codes to safe messages,
anything else to a generic one. -/
def formatError (code : Option String) : String :=
  match code with
  | some "ECONNREFUSED" => "Connection refused. Is the service running?"
  | some "ETIMEDOUT" => "Request timed out. Please try again."
  | some "rate_limit" => "Rate limit exceeded. Please wait before retrying."
  | some "401" => "Authentication failed. Please check your API key."
  | some "404" => "Model not found. Please check the model name."
  | some "500" => "Server error. Please try again later."
  | _ => "An error occurred"

/-- Substring test `a.includes(b)` on strings (character-level model). -/
def strContains (s sub : String) : Bool :=
  (List.range (s.length + 1)).any (fun i => listHasHead sub.data (s.data.drop i))

/-- Resolution `options.modelTier || balanced` (an empty string is falsy). -/
def resolveHFTier (opts : HFOptions) : String :=
  match opts.modelTier with
  | some t => if t = "" then "balanced" else t
  | none => "balanced"

/-- Mutable state of the HuggingFace provider that `complete` touches. -/
structure HFState where
  cache : LRU HFKey String
  usage : Usage
  hits : Nat
  misses : Nat
  deriving Repr

/-- Outcome of one `complete` call: the returned/thrown value, the state
afterwards, and whether the HTTP request was issued. -/
structure HFResult where
  result : Except String String
  state : HFState
  networkCalled : Bool
  deriving Repr

/-- The cache-miss path of `HuggingFaceProvider.complete`: issue the HTTP
request (outcome `net`: the generated text — possibly empty — or the thrown
error), cache a successful result and track usage. -/
def hfMissPath (st : HFState) (key : HFKey) (prompt : String) (now : Nat)
    (net : Except JsError String) : HFResult :=
  match net with
  | Except.error e =>
      let msg :=
        if strContains e.message "Rate limit" then
          "Rate limit exceeded. Please wait before retrying."
        else
          "HuggingFace API error: " ++ formatError e.code
      ⟨Except.error msg, st, true⟩
  | Except.ok text =>
      let (cache2, _) := st.cache.set hfCacheMax key text now
      let tokens := estimateTokens prompt + estimateTokens text
      ⟨Except.ok text,
        { st with cache := cache2, usage := trackUsage st.usage tokens }, true⟩

/-- Model of `HuggingFaceProvider.complete(prompt, options)` at instant `now`.
Resolves the tier (`options.modelTier || balanced`), rejects unknown
tiers, consults the cache (`if (cached && !options.noCache) return cached`
— an empty cached string is falsy and is treated as a miss), and otherwise
runs the miss path. No rate-limit check appears anywhere on this path. -/
def hfComplete (st : HFState) (prompt : String) (opts : HFOptions)
    (now : Nat) (net : Except JsError String) : HFResult :=
  let tier := resolveHFTier opts
  match hfModels tier with
  | none =>
      ⟨Except.error ("Unknown model tier: " ++ tier ++
        ". Use \x27fast\x27, \x27balanced\x27, or \x27deep\x27"), st, false⟩
  | some m =>
      let key := getCacheKey prompt m.id opts
      let (cache1, cached) := st.cache.get ttl24 key now
      match cached with
      | some v =>
          if v ≠ "" ∧ opts.noCache = false then
            ⟨Except.ok v, { st with cache := cache1, hits := st.hits + 1 }, false⟩
          else
            hfMissPath { st with cache := cache1, misses := st.misses + 1 }
              key prompt now net
      | none =>
          hfMissPath { st with cache := cache1, misses := st.misses + 1 }
            key prompt now net

/-! ### Persistent cache of the provider layer (huggingface.js) -/

variable {κ ν : Type} [DecidableEq κ] [DecidableEq ν]

/-- Model of `loadPersistentCache()`: a missing or corrupt file (`disk = none`)
leaves the cache untouched — the enclosing try/catch swallows every error —
otherwise each on-disk entry with `entry.expires > now` is inserted into
the in-memory cache (all against the single `now` read before the loop). -/
def loadPersistentCache (disk : Disk κ ν) (c : LRU κ ν) (now : Nat)
    (max : Nat) : LRU κ ν :=
  match disk with
  | none => c
  | some entries =>
      entries.foldl
        (fun acc kv =>
          if kv.2.expires > now then (acc.set max kv.1 kv.2.value now).1 else acc)
        c

/-- Model of `savePersistentCache()`: overwrite the disk file with every (live)
in-memory entry, each stamped `expires = Date.now() + 24h` — the save-time
clock, not the store time of the entry. -/
def savePersistentCache (c : LRU κ ν) (now : Nat) :
    List (κ × DiskEntry ν) :=
  (c.valid ttl24 now).map (fun e => (e.key, ⟨e.value, now + ttl24⟩))

/-! ### AIEnhancer-layer cache (src/lib/ai-enhancer.js), whose LRU is
constructed with a dispose callback persisting evicted entries. -/

/-- Upsert into the parsed JSON object of the disk file. -/
def diskUpsert (d : List (κ × DiskEntry ν)) (k : κ) (e : DiskEntry ν) :
    List (κ × DiskEntry ν) :=
  if d.any (·.1 = k) then
    d.map (fun p => if p.1 = k then (k, e) else p)
  else
    d ++ [(k, e)]

/-- Model of `AIEnhancer.saveCacheEntry(key, value)` (the dispose callback):
read the existing file (missing ⇒ `{}`), add the entry with
`expires = now + 24h`, write the file back. -/
def saveCacheEntry (disk : Disk κ ν) (k : κ) (v : ν) (now : Nat) :
    List (κ × DiskEntry ν) :=
  diskUpsert (disk.getD []) k ⟨v, now + ttl24⟩

/-- A `set` on the AIEnhancer cache: the LRU insert, plus the dispose
callback persisting the evicted entry (when one is evicted) to disk. -/
def enhancerCacheSet (c : LRU κ ν) (disk : Disk κ ν) (max : Nat) (k : κ)
    (v : ν) (now : Nat) : LRU κ ν × Disk κ ν :=
  let (c', evicted) := c.set max k v now
  match evicted with
  | none => (c', disk)
  | some e => (c', some (saveCacheEntry disk e.key e.value now))

/-- A `set` on the provider-layer cache as performed inside
`HuggingFaceProvider.complete`: the LRU insert (no dispose callback — the
evicted line is dropped), followed by the fire-and-forget
`savePersistentCache()` overwriting the disk file from the post-eviction
memory contents. Returns the new cache, the evicted line, and the new disk
file contents. -/
def hfCacheSetAndPersist (c : LRU κ ν) (max : Nat) (k : κ) (v : ν)
    (now : Nat) : LRU κ ν × Option (CacheLine κ ν) × List (κ × DiskEntry ν) :=
  let (c', evicted) := c.set max k v now
  (c', evicted, savePersistentCache c' now)

/-! ## OllamaProvider.complete (src/lib/template-utils.js) -/

/-- The outbound HTTP requests `complete` can issue, in order:
`GET /api/tags` (listModels), `POST /api/pull`, `POST /api/generate`. -/
inductive NetCall where
  | listTags
  | pull
  | generate
  deriving DecidableEq, Repr

/-- Fallback value of `this.defaultModel` (llama3.2:1b). -/
def ollamaDefaultModel : String := "llama3.2:1b"

/-- Overridden Ollama hourly budget (`requestsPerHour: 10000`). -/
def ollamaRequestsPerHour : Nat := 10000

/-- Outcome of one Ollama `complete` call: result, usage afterwards, and
the network calls issued, in order. -/
structure OllamaResult where
  result : Except String String
  usage : Usage
  calls : List NetCall
  deriving Repr

/-- Resolution `options.model || this.defaultModel` (an empty string is
falsy; `this.defaultModel` is never falsy, so the further fallback to
`getBestModelForMode` is unreachable). -/
def resolveOllamaModel (optsModel : Option String) : String :=
  match optsModel with
  | some m => if m = "" then ollamaDefaultModel else m
  | none => ollamaDefaultModel

/-- Model of `OllamaProvider.complete(prompt, options)` at instant `now`.
`tags` is the outcome of the `listModels` round-trip (error = the message
`listModels` throws), `pullRes` the outcome of `pullModel`, `gen` the
outcome of the generate request. Flow: resolve the model name
(`options.model || this.defaultModel`), `checkRateLimits()` (which throws
before any network call), list installed models, pull when the model is
absent unless `options.autoPull === false` (then throw ModelNotFound
without pulling), then generate and track usage. -/
def ollamaComplete (u : Usage) (now : Nat) (prompt : String)
    (optsModel : Option String) (autoPull : Option Bool)
    (tags : Except String (List String)) (pullRes : Except String Unit)
    (gen : Except String String) : OllamaResult :=
  let model := resolveOllamaModel optsModel
  let (u1, rl) := checkRateLimits ollamaRequestsPerHour u now
  match rl with
  | some e => ⟨Except.error e, u1, []⟩
  | none =>
      let proceed := fun (calls : List NetCall) =>
        match gen with
        | Except.error e =>
            OllamaResult.mk (Except.error ("Ollama completion failed: " ++ e))
              u1 (calls ++ [NetCall.generate])
        | Except.ok text =>
            OllamaResult.mk (Except.ok text)
              (trackUsage u1 (estimateTokens prompt + estimateTokens text))
              (calls ++ [NetCall.generate])
      match tags with
      | Except.error e => ⟨Except.error e, u1, [NetCall.listTags]⟩
      | Except.ok installed =>
          if installed.contains model then
            proceed [NetCall.listTags]
          else if autoPull ≠ some false then
            match pullRes with
            | Except.error e =>
                ⟨Except.error ("Failed to pull model: " ++ e), u1,
                  [NetCall.listTags, NetCall.pull]⟩
            | Except.ok _ => proceed [NetCall.listTags, NetCall.pull]
          else
            ⟨Except.error ("Model " ++ model ++
              " not found. Use --pull to download it."), u1, [NetCall.listTags]⟩

/-! # Theorems -/

/-! ## C7 — usage counters and the hourly reset -/

/-- C7 counterexample: with counters (requests 5, tokens 10) and
`lastReset = 0`, more than one hour has elapsed at instant 7200000, yet
`trackUsage` leaves the counters un-zeroed (it has no access to a clock at
all): the claim that `trackUsage` resets the counters when the hour has
elapsed is false. -/
theorem trackUsage_no_reset_cex :
    7200000 - (Usage.mk 5 10 0).lastReset > hourMs ∧
    trackUsage (Usage.mk 5 10 0) 3 = Usage.mk 6 13 0 ∧
    (trackUsage (Usage.mk 5 10 0) 3).requests ≠ 0 := by
  refine ⟨by decide, rfl, by decide⟩

/-- C7 (amended): `trackUsage` only increments the counters (requests by
one, tokens by the token count) and never touches `lastReset`; counters are
monotone within a window; the zeroing — counters to 0 and
`lastReset := now` — is performed by `checkRateLimits`, exactly when
strictly more than one hour has elapsed since `lastReset`, and
`checkRateLimits` leaves the usage unchanged otherwise. -/
theorem usage_counters_correct :
    (∀ u t, trackUsage u t =
      Usage.mk (u.requests + 1) (u.tokens + t) u.lastReset) ∧
    (∀ u t, u.requests ≤ (trackUsage u t).requests ∧
      u.tokens ≤ (trackUsage u t).tokens ∧
      (trackUsage u t).lastReset = u.lastReset) ∧
    (∀ rph u now, now - u.lastReset > hourMs →
      (checkRateLimits rph u now).1 = Usage.mk 0 0 now) ∧
    (∀ rph u now, now - u.lastReset ≤ hourMs →
      (checkRateLimits rph u now).1 = u) := by
  refine ⟨fun u t => rfl,
    fun u t => ⟨Nat.le_succ _, Nat.le_add_right _ _, rfl⟩, ?_, ?_⟩
  · intro rph u now h
    simp only [checkRateLimits, if_pos h]
    split <;> rfl
  · intro rph u now h
    simp only [checkRateLimits, if_neg (by omega : ¬ now - u.lastReset > hourMs)]
    split <;> rfl

/-- Witness for C7: the amended theorem evaluated at concrete usage
states, inside and outside the reset window. -/
theorem usage_counters_correct_witness :
    trackUsage (Usage.mk 1 2 5) 4 = Usage.mk 2 6 5 ∧
    (checkRateLimits 1000 (Usage.mk 1 2 5) 3700006).1 = Usage.mk 0 0 3700006 ∧
    (checkRateLimits 1000 (Usage.mk 1 2 5) 5).1 = Usage.mk 1 2 5 :=
  ⟨usage_counters_correct.1 (Usage.mk 1 2 5) 4,
   usage_counters_correct.2.2.1 1000 (Usage.mk 1 2 5) 3700006 (by decide),
   usage_counters_correct.2.2.2 1000 (Usage.mk 1 2 5) 5 (by decide)⟩

/-! ## C2 — where the HuggingFace credential shape is checked -/

/-- C2 counterexample: the non-empty credential sk-12345 lacks the
required head and is shorter than 20 characters, yet the constructor
accepts it — the shape check does not happen at construction time. -/
theorem hf_ctor_no_shape_check_cex :
    ("sk-12345" : String) ≠ "" ∧
    jsStartsWith "sk-12345" "hf_" = false ∧
    "sk-12345".length < 20 ∧
    hfCtorApiKey (some "sk-12345") none = Except.ok "sk-12345" := by
  refine ⟨by decide, by decide, by decide, rfl⟩

/-- C2 (amended): the constructor throws exactly when the configured
credential is missing/empty; every non-empty credential is accepted by the
constructor regardless of shape. The shape check (head hf_ and minimum
length 20) is performed by initialize, which throws the
AuthenticationFailed-class error — before any network call, since
initialize performs none — for every credential violating it, and accepts
every credential satisfying it. -/
theorem hf_credential_check_correct :
    (∀ k : String, k ≠ "" → hfCtorApiKey (some k) none = Except.ok k) ∧
    (∀ k : String, jsStartsWith k "hf_" = false ∨ k.length < 20 →
      hfInitCheck k = Except.error "Invalid HuggingFace API key format") ∧
    (∀ k : String, jsStartsWith k "hf_" = true → 20 ≤ k.length →
      hfInitCheck k = Except.ok ()) ∧
    hfCtorApiKey none none =
      Except.error "HuggingFace API key not found. Set HF_TOKEN environment variable." := by
  refine ⟨?_, ?_, ?_, rfl⟩
  · intro k hk
    simp only [hfCtorApiKey, if_neg hk]
  · intro k h
    simp only [hfInitCheck, if_pos h]
  · intro k h1 h2
    have : ¬ (jsStartsWith k "hf_" = false ∨ k.length < 20) := by
      push_neg
      exact ⟨by simp [h1], by omega⟩
    simp only [hfInitCheck, if_neg this]

/-- Witness for C2: the amended theorem evaluated at a malformed and at a
well-formed concrete credential. -/
theorem hf_credential_check_correct_witness :
    hfCtorApiKey (some "sk-12345") none = Except.ok "sk-12345" ∧
    hfInitCheck "sk-12345" = Except.error "Invalid HuggingFace API key format" ∧
    hfInitCheck "hf_abcdefghijklmnopqr" = Except.ok () :=
  ⟨hf_credential_check_correct.1 "sk-12345" (by decide),
   hf_credential_check_correct.2.1 "sk-12345" (Or.inl (by decide)),
   hf_credential_check_correct.2.2.1 "hf_abcdefghijklmnopqr" (by decide) (by decide)⟩

/-! ## C6 — autoPull handling of the local provider -/

/-- C6: when the requested model is not among the installed models and the
call is not rate limited, `complete` with `autoPull = false` throws the
ModelNotFound error having issued only the list-models request — no pull —
while with `autoPull` unset or true a blocking pull of the model is
issued. -/
theorem ollama_autopull_correct
    (u : Usage) (now : Nat) (prompt : String) (om : Option String)
    (ap : Option Bool) (installed : List String)
    (pullRes : Except String Unit) (gen : Except String String)
    (hrl : (checkRateLimits ollamaRequestsPerHour u now).2 = none)
    (habs : installed.contains (resolveOllamaModel om) = false) :
    (ap = some false →
      ollamaComplete u now prompt om ap (Except.ok installed) pullRes gen =
        ⟨Except.error ("Model " ++ resolveOllamaModel om ++
           " not found. Use --pull to download it."),
         (checkRateLimits ollamaRequestsPerHour u now).1, [NetCall.listTags]⟩) ∧
    (ap ≠ some false →
      NetCall.pull ∈
        (ollamaComplete u now prompt om ap (Except.ok installed) pullRes gen).calls) := by
  have habs2 : resolveOllamaModel om ∉ installed := by simpa using habs
  rcases hc : checkRateLimits ollamaRequestsPerHour u now with ⟨u1, rl⟩
  rw [hc] at hrl
  simp only at hrl
  subst hrl
  constructor
  · intro hap
    subst hap
    simp [ollamaComplete, hc, habs2]
  · intro hap
    simp only [ollamaComplete, hc]
    cases pullRes <;> cases gen <;> simp [habs2, hap]

/-- Witness for C6: the theorem evaluated with the model mistral absent
from the installed list, once with `autoPull = false` and once with
`autoPull` unset. -/
theorem ollama_autopull_correct_witness :
    ollamaComplete (Usage.mk 0 0 0) 50 "p" (some "mistral") (some false)
        (Except.ok ["llama3"]) (Except.ok ()) (Except.ok "t") =
      ⟨Except.error "Model mistral not found. Use --pull to download it.",
       Usage.mk 0 0 0, [NetCall.listTags]⟩ ∧
    NetCall.pull ∈ (ollamaComplete (Usage.mk 0 0 0) 50 "p" (some "mistral")
        none (Except.ok ["llama3"]) (Except.ok ()) (Except.ok "t")).calls := by
  constructor
  · exact (ollama_autopull_correct (Usage.mk 0 0 0) 50 "p" (some "mistral")
      (some false) ["llama3"] (Except.ok ()) (Except.ok "t")
      (by decide) (by decide)).1 rfl
  · exact (ollama_autopull_correct (Usage.mk 0 0 0) 50 "p" (some "mistral")
      none ["llama3"] (Except.ok ()) (Except.ok "t")
      (by decide) (by decide)).2 (by decide)

/-! ## C3 — rate-limit checking before the network call -/

/-- Helper: the result value of the miss path does not depend on the
provider state. -/
theorem hfMissPath_result (st : HFState) (k : HFKey) (p : String) (now : Nat)
    (net : Except JsError String) :
    (hfMissPath st k p now net).result =
      match net with
      | Except.error e =>
          Except.error
            (if strContains e.message "Rate limit" then
              "Rate limit exceeded. Please wait before retrying."
            else "HuggingFace API error: " ++ formatError e.code)
      | Except.ok text => Except.ok text := by
  cases net <;> rfl

/-- Helper: the miss path always issues the network call. -/
theorem hfMissPath_called (st : HFState) (k : HFKey) (p : String) (now : Nat)
    (net : Except JsError String) :
    (hfMissPath st k p now net).networkCalled = true := by
  cases net <;> rfl

/-- C3 counterexample: the HuggingFace provider with its hourly budget
already exhausted (requests = 1000 = requestsPerHour, window current at
instant 100) and an empty cache still issues the network call, and returns
the network result instead of a RateLimitExceeded error — `complete` never
consults the rate-limit counters. -/
theorem hf_no_rate_limit_check_cex :
    hfRequestsPerHour ≤ (Usage.mk 1000 0 0).requests ∧
    (100 : Nat) - (Usage.mk 1000 0 0).lastReset ≤ hourMs ∧
    (hfComplete ⟨LRU.empty HFKey String, Usage.mk 1000 0 0, 0, 0⟩ "p"
        ⟨none, none, none, false⟩ 100 (Except.ok "hi")).networkCalled = true ∧
    (hfComplete ⟨LRU.empty HFKey String, Usage.mk 1000 0 0, 0, 0⟩ "p"
        ⟨none, none, none, false⟩ 100 (Except.ok "hi")).result =
      Except.ok "hi" := by
  refine ⟨by decide, by decide, rfl, rfl⟩

/-- C3 (amended): the local (Ollama) provider checks its counters first and,
when the hourly budget is exhausted within the current window, fails with
the RateLimitExceeded error having issued no network call; the hosted
(HuggingFace) provider performs no such check — the result and the
network-call behaviour of its `complete` are independent of the usage
counters. -/
theorem rate_limit_check_correct :
    (∀ u now prompt om ap tags pullRes gen,
      now - u.lastReset ≤ hourMs → ollamaRequestsPerHour ≤ u.requests →
      ollamaComplete u now prompt om ap tags pullRes gen =
        ⟨Except.error ("Rate limit exceeded: " ++
           toString ollamaRequestsPerHour ++ " requests per hour"), u, []⟩) ∧
    (∀ cache u1 u2 h m prompt opts now net,
      (hfComplete ⟨cache, u1, h, m⟩ prompt opts now net).result =
        (hfComplete ⟨cache, u2, h, m⟩ prompt opts now net).result ∧
      (hfComplete ⟨cache, u1, h, m⟩ prompt opts now net).networkCalled =
        (hfComplete ⟨cache, u2, h, m⟩ prompt opts now net).networkCalled) := by
  constructor
  · intro u now prompt om ap tags pullRes gen h1 h2
    have hc : checkRateLimits ollamaRequestsPerHour u now =
        (u, some ("Rate limit exceeded: " ++
          toString ollamaRequestsPerHour ++ " requests per hour")) := by
      simp only [checkRateLimits,
        if_neg (by omega : ¬ now - u.lastReset > hourMs), if_pos h2]
    simp [ollamaComplete, hc]
  · intro cache u1 u2 h m prompt opts now net
    cases hm : hfModels (resolveHFTier opts) with
    | none => simp [hfComplete, hm]
    | some mc =>
        rcases hget : LRU.get cache ttl24 (getCacheKey prompt mc.id opts) now
          with ⟨c1, cached⟩
        cases cached with
        | none =>
            simp [hfComplete, hm, hget, hfMissPath_result, hfMissPath_called]
        | some v =>
            by_cases hv : v ≠ "" ∧ opts.noCache = false
            · simp [hfComplete, hm, hget, if_pos hv]
            · simp [hfComplete, hm, hget, if_neg hv, hfMissPath_result,
                hfMissPath_called]

/-- Witness for C3: the amended theorem evaluated at a rate-limited Ollama
state and at two HuggingFace states differing in their usage counters. -/
theorem rate_limit_check_correct_witness :
    ollamaComplete (Usage.mk 10000 7 0) 50 "p" none none
        (Except.ok []) (Except.ok ()) (Except.ok "t") =
      ⟨Except.error "Rate limit exceeded: 10000 requests per hour",
       Usage.mk 10000 7 0, []⟩ ∧
    (hfComplete ⟨LRU.empty HFKey String, Usage.mk 1000 0 0, 0, 0⟩ "p"
        ⟨none, none, none, false⟩ 100 (Except.ok "hi")).result =
      (hfComplete ⟨LRU.empty HFKey String, Usage.mk 0 0 0, 0, 0⟩ "p"
        ⟨none, none, none, false⟩ 100 (Except.ok "hi")).result :=
  ⟨rate_limit_check_correct.1 (Usage.mk 10000 7 0) 50 "p" none none
      (Except.ok []) (Except.ok ()) (Except.ok "t") (by decide) (by decide),
   (rate_limit_check_correct.2 (LRU.empty HFKey String) (Usage.mk 1000 0 0)
      (Usage.mk 0 0 0) 0 0 "p" ⟨none, none, none, false⟩ 100
      (Except.ok "hi")).1⟩

/-! ## C1 — executeWithFallback -/

/-- Helper: the fallback loop skipping `pn` equals the specification fold
over the providers other than `pn`, with the already-accumulated failures
prepended. -/
theorem fallbackLoop_eq {α β : Type} (op : α → Except String β) (pn : String)
    (l : List (String × α)) (errs : List (String × String)) :
    fallbackLoop op (some pn) errs l =
      match firstSuccess op (l.filter (fun q => q.1 ≠ pn)) with
      | (Except.ok b, es) => (Except.ok b, errs ++ es)
      | (Except.error es, _) => (Except.error (errs ++ es), errs ++ es) := by
  induction l generalizing errs with
  | nil => simp [fallbackLoop, firstSuccess]
  | cons hd tl ih =>
      obtain ⟨n, p⟩ := hd
      by_cases hn : n = pn
      · subst hn
        have h1 : fallbackLoop op (some n) errs ((n, p) :: tl) =
            fallbackLoop op (some n) errs tl := by
          simp [fallbackLoop]
        have h2 : List.filter (fun q => decide (q.1 ≠ n)) ((n, p) :: tl) =
            List.filter (fun q => decide (q.1 ≠ n)) tl := by
          simp [List.filter_cons]
        rw [h1, ih errs, h2]
      · have hskip : ¬ ((some pn : Option String) = some n) := by
          simp only [Option.some.injEq]
          exact fun h => hn h.symm
        have h2 : List.filter (fun q => decide (q.1 ≠ pn)) ((n, p) :: tl) =
            (n, p) :: List.filter (fun q => decide (q.1 ≠ pn)) tl := by
          simp [List.filter_cons, hn]
        cases hop : op p with
        | ok b =>
            have h1 : fallbackLoop op (some pn) errs ((n, p) :: tl) =
                (Except.ok b, errs) := by
              simp [fallbackLoop, hskip, hop]
            rw [h1, h2]
            simp [firstSuccess, hop]
        | error e =>
            have h1 : fallbackLoop op (some pn) errs ((n, p) :: tl) =
                fallbackLoop op (some pn) (errs ++ [(n, e)]) tl := by
              simp [fallbackLoop, hskip, hop]
            rw [h1, ih (errs ++ [(n, e)]), h2]
            simp only [firstSuccess, hop]
            rcases hfs : firstSuccess op (tl.filter fun q => decide (q.1 ≠ pn))
              with ⟨res, es⟩
            cases res <;> simp

/-- Helper: when the specification fold fails, the recorded failure names
are exactly the provider names, in order. -/
theorem firstSuccess_error_names {α β : Type} (op : α → Except String β)
    (l : List (String × α)) :
    ∀ es, (firstSuccess op l).1 = Except.error es →
      es.map Prod.fst = l.map Prod.fst := by
  induction l with
  | nil =>
      intro es h
      simp only [firstSuccess, Except.error.injEq] at h
      subst h
      rfl
  | cons hd tl ih =>
      obtain ⟨n, p⟩ := hd
      intro es h
      cases hop : op p with
      | ok b => simp [firstSuccess, hop] at h
      | error e =>
          rcases hfs : firstSuccess op tl with ⟨res, es2⟩
          cases res with
          | ok b => simp [firstSuccess, hop, hfs] at h
          | error es3 =>
              simp only [firstSuccess, hop, hfs, Except.error.injEq] at h
              subst h
              have := ih es3 (by rw [hfs])
              simp [this]

/-- Helper: every recorded failure comes from a listed provider whose
operation threw that message. -/
theorem firstSuccess_error_mem {α β : Type} (op : α → Except String β)
    (l : List (String × α)) :
    ∀ es, (firstSuccess op l).1 = Except.error es →
      ∀ pr ∈ es, ∃ a, (pr.1, a) ∈ l ∧ op a = Except.error pr.2 := by
  induction l with
  | nil =>
      intro es h pr hpr
      simp only [firstSuccess, Except.error.injEq] at h
      subst h
      simp at hpr
  | cons hd tl ih =>
      obtain ⟨n, p⟩ := hd
      intro es h pr hpr
      cases hop : op p with
      | ok b => simp [firstSuccess, hop] at h
      | error e =>
          rcases hfs : firstSuccess op tl with ⟨res, es2⟩
          cases res with
          | ok b => simp [firstSuccess, hop, hfs] at h
          | error es3 =>
              simp only [firstSuccess, hop, hfs, Except.error.injEq] at h
              subst h
              rcases List.mem_cons.mp hpr with hpr | hpr
              · subst hpr
                exact ⟨p, List.mem_cons_self _ _, by simpa using hop⟩
              · obtain ⟨a, ha, hae⟩ := ih es3 (by rw [hfs]) pr hpr
                exact ⟨a, List.mem_cons_of_mem _ ha, hae⟩

/-- Helper: the specification fold fails only when every listed provider
fails. -/
theorem firstSuccess_error_all {α β : Type} (op : α → Except String β)
    (l : List (String × α)) :
    ∀ es, (firstSuccess op l).1 = Except.error es →
      ∀ q ∈ l, ∃ e, op q.2 = Except.error e := by
  induction l with
  | nil => intro es _ q hq; simp at hq
  | cons hd tl ih =>
      obtain ⟨n, p⟩ := hd
      intro es h q hq
      cases hop : op p with
      | ok b => simp [firstSuccess, hop] at h
      | error e =>
          rcases hfs : firstSuccess op tl with ⟨res, es2⟩
          cases res with
          | ok b => simp [firstSuccess, hop, hfs] at h
          | error es3 =>
              rcases List.mem_cons.mp hq with hq | hq
              · exact ⟨e, by simpa [hq] using hop⟩
              · exact ih es3 (by rw [hfs]) q hq

/-- C1: when the preferred name (or, with no preference, the current
default) resolves to a registered provider `p` under name `pn`,
`executeWithFallback` behaves exactly like the specification fold that
applies the operation to `p` first and then to every other registered
provider in registration order: it returns the first success, and when it
fails it fails with exactly one recorded (name, message) failure per
provider — the preferred one first, then the others in order — each
message being the error thrown by that provider, and it fails only when
every provider in that order has failed. -/
theorem executeWithFallback_correct {α β : Type} (r : Registry α)
    (op : α → Except String β) (pref : Option String) (nf : String → String)
    (pn : String) (p : α)
    (hres : r.resolvePreferred pref = some pn)
    (hfind : r.findProvider pn = some p) :
    (r.executeWithFallback op pref nf =
      firstSuccess op ((pn, p) :: r.providers.filter (fun q => q.1 ≠ pn))) ∧
    (∀ b, op p = Except.ok b →
      r.executeWithFallback op pref nf = (Except.ok b, [])) ∧
    (∀ es, (r.executeWithFallback op pref nf).1 = Except.error es →
      es.map Prod.fst =
        pn :: (r.providers.filter (fun q => q.1 ≠ pn)).map Prod.fst ∧
      (∀ pr ∈ es, ∃ a,
        (pr.1, a) ∈ (pn, p) :: r.providers.filter (fun q => q.1 ≠ pn) ∧
        op a = Except.error pr.2) ∧
      (∀ q ∈ (pn, p) :: r.providers.filter (fun q => q.1 ≠ pn),
        ∃ e, op q.2 = Except.error e)) := by
  have hmain : r.executeWithFallback op pref nf =
      firstSuccess op ((pn, p) :: r.providers.filter (fun q => q.1 ≠ pn)) := by
    simp only [Registry.executeWithFallback, hres, hfind]
    cases hop : op p with
    | ok b => simp [firstSuccess, hop]
    | error e =>
        change fallbackLoop op (some pn) [(pn, e)] r.providers
          = firstSuccess op ((pn, p) :: r.providers.filter fun q => q.1 ≠ pn)
        rw [fallbackLoop_eq]
        simp only [firstSuccess, hop]
        rcases hfs : firstSuccess op (r.providers.filter fun q => decide (q.1 ≠ pn))
          with ⟨res, es⟩
        cases res <;> simp
  refine ⟨hmain, ?_, ?_⟩
  · intro b hop
    rw [hmain]
    simp [firstSuccess, hop]
  · intro es herr
    rw [hmain] at herr
    exact ⟨firstSuccess_error_names op _ es herr,
      firstSuccess_error_mem op _ es herr,
      firstSuccess_error_all op _ es herr⟩

/-- The two-provider scenario of the spec: alpha always refuses the
connection, beta always answers OK-beta, the default is alpha. -/
def demoReg : Registry String := ⟨[("alpha", "A"), ("beta", "B")], some "alpha"⟩

/-- The scenario operation: throws on the alpha provider, succeeds on
beta. -/
def demoOp : String → Except String String :=
  fun p => if p = "A" then Except.error "connection refused"
    else Except.ok "OK-beta"

/-- Witness for C1: the theorem evaluated on the spec scenario — the call
succeeds with OK-beta while the internally recorded failures hold exactly
the alpha entry. -/
theorem executeWithFallback_correct_witness :
    demoReg.executeWithFallback demoOp none (providerNotFoundMsg demoReg) =
      firstSuccess demoOp
        (("alpha", "A") :: demoReg.providers.filter (fun q => q.1 ≠ "alpha")) ∧
    demoReg.executeWithFallback demoOp none (providerNotFoundMsg demoReg) =
      (Except.ok "OK-beta", [("alpha", "connection refused")]) :=
  ⟨(executeWithFallback_correct demoReg demoOp none
      (providerNotFoundMsg demoReg) "alpha" "A" rfl rfl).1,
   rfl⟩

/-! ## C8 — registry invariant -/

/-- Helper: `mapSet` preserves the key list when the key is present and
appends it otherwise. -/
theorem mapSet_keys {α : Type} (l : List (String × α)) (k : String) (v : α) :
    (mapSet l k v).map Prod.fst =
      if l.any (·.1 = k) then l.map Prod.fst else l.map Prod.fst ++ [k] := by
  unfold mapSet
  split
  · simp only [List.map_map]
    refine (List.map_congr_left ?_)
    intro p _
    by_cases h : p.1 = k
    · simp [h]
    · simp [h]
  · simp

/-- Helper: after `mapSet`, the key is present. -/
theorem mem_mapSet_self {α : Type} (l : List (String × α)) (k : String)
    (v : α) : k ∈ (mapSet l k v).map Prod.fst := by
  rw [mapSet_keys]
  split
  · rename_i h
    rcases List.any_eq_true.mp h with ⟨p, hp, hpk⟩
    exact (of_decide_eq_true hpk) ▸ List.mem_map_of_mem _ hp
  · simp

/-- Helper: `mapSet` keeps every previously present key. -/
theorem mem_mapSet_of_mem {α : Type} (l : List (String × α)) (k x : String)
    (v : α) (hx : x ∈ l.map Prod.fst) : x ∈ (mapSet l k v).map Prod.fst := by
  rw [mapSet_keys]
  split
  · exact hx
  · exact List.mem_append_left _ hx

/-- Helper: `mapSet` preserves distinctness of the keys. -/
theorem mapSet_nodup {α : Type} (l : List (String × α)) (k : String) (v : α)
    (h : (l.map Prod.fst).Nodup) : ((mapSet l k v).map Prod.fst).Nodup := by
  rw [mapSet_keys]
  split
  · exact h
  · rename_i hany
    have hk : k ∉ l.map Prod.fst := by
      intro hmem
      rcases List.mem_map.mp hmem with ⟨p, hp, hpk⟩
      exact hany (List.any_eq_true.mpr ⟨p, hp, by simp [hpk]⟩)
    rw [List.nodup_append]
    refine ⟨h, List.nodup_singleton _, ?_⟩
    intro a ha hb
    rw [List.mem_singleton] at hb
    exact hk (hb ▸ ha)

/-- Helper: one registry mutation preserves the invariant. -/
theorem inv_applyOp {α : Type} (r : Registry α) (o : RegOp α)
    (h : r.Inv) : (r.applyOp o).Inv := by
  obtain ⟨hdef, hnd⟩ := h
  cases o with
  | register n c =>
      cases c with
      | none => exact ⟨hdef, hnd⟩
      | some p =>
          refine ⟨?_, ?_⟩
          · intro d hd
            simp only [Registry.applyOp, Registry.registerProvider] at hd ⊢
            cases hdp : r.defaultProvider with
            | none =>
                rw [hdp] at hd
                simp only [Option.some.injEq] at hd
                subst hd
                exact mem_mapSet_self _ _ _
            | some d0 =>
                rw [hdp] at hd
                simp only [Option.some.injEq] at hd
                subst hd
                exact mem_mapSet_of_mem _ _ _ _ (hdef d0 hdp)
          · exact mapSet_nodup r.providers n p hnd
  | setDefault n =>
      by_cases hany : r.providers.any (·.1 = n) = true
      · have hred : r.applyOp (RegOp.setDefault n) =
            { r with defaultProvider := some n } := by
          simp [Registry.applyOp, Registry.setDefault, hany]
        rw [hred]
        refine ⟨?_, hnd⟩
        intro d hd
        simp only [Option.some.injEq] at hd
        subst hd
        rcases List.any_eq_true.mp hany with ⟨q, hq, hqk⟩
        exact (of_decide_eq_true hqk) ▸ List.mem_map_of_mem _ hq
      · have hred : r.applyOp (RegOp.setDefault n) = r := by
          simp only [Registry.applyOp, Registry.setDefault]
          rw [if_neg hany]
        rw [hred]
        exact ⟨hdef, hnd⟩

/-- C8: every state reachable by a sequence of register/set-default
mutations satisfies the invariant (a set default names a registered
provider; keys are distinct); a constructor failure leaves the registry
unchanged; the first successfully constructed provider becomes the default
when none is set; and `setDefaultProvider` with an unregistered name throws
without producing a new state. -/
theorem registry_invariant {α : Type} :
    (∀ ops : List (RegOp α), (Registry.run ops).Inv) ∧
    (∀ (r : Registry α) n, r.registerProvider n none = r) ∧
    (∀ (r : Registry α) n p, r.defaultProvider = none →
      (r.registerProvider n (some p)).defaultProvider = some n) ∧
    (∀ (r : Registry α) n, r.providers.any (·.1 = n) = false →
      r.setDefault n =
        Except.error ("Provider \x27" ++ n ++ "\x27 not found")) := by
  refine ⟨?_, fun r n => rfl, ?_, ?_⟩
  · intro ops
    have hstep : ∀ (l : List (RegOp α)) (r : Registry α), r.Inv →
        (l.foldl Registry.applyOp r).Inv := by
      intro l
      induction l with
      | nil => exact fun r h => h
      | cons o tl ih => exact fun r h => ih _ (inv_applyOp r o h)
    exact hstep ops (Registry.init α) ⟨by simp [Registry.init], by simp [Registry.init]⟩
  · intro r n p h
    simp [Registry.registerProvider, h]
  · intro r n h
    simp [Registry.setDefault, h]

/-- Witness for C8: the theorem evaluated on a concrete mutation sequence
(register ollama, a failing huggingface construction, a rejected
set-default, a successful set-default) and on concrete single steps. -/
theorem registry_invariant_witness :
    (Registry.run [RegOp.register "ollama" (some "O"),
      RegOp.register "huggingface" (none : Option String),
      RegOp.setDefault "nope", RegOp.setDefault "ollama"]).Inv ∧
    ((Registry.init String).registerProvider "x" (some "P")).defaultProvider
      = some "x" ∧
    (Registry.init String).setDefault "y" =
      Except.error ("Provider \x27y\x27 not found") :=
  ⟨registry_invariant.1 _,
   registry_invariant.2.2.1 (Registry.init String) "x" "P" rfl,
   registry_invariant.2.2.2 (Registry.init String) "y" rfl⟩

/-! ## Shared LRU-cache lemmas -/

/-- Helper: filtering out an absent key changes nothing. -/
theorem filter_key_eq_self {κ ν : Type} [DecidableEq κ]
    (l : List (CacheLine κ ν)) (k : κ) (h : k ∉ l.map (·.key)) :
    l.filter (·.key ≠ k) = l := by
  refine List.filter_eq_self.mpr ?_
  intro e he
  exact decide_eq_true (fun heq => h (heq ▸ List.mem_map_of_mem _ he))

/-- Helper: inserting a fresh key below capacity evicts nothing. -/
theorem set_fresh_no_evict {κ ν : Type} [DecidableEq κ] [DecidableEq ν]
    (c : LRU κ ν) (max : Nat) (k : κ) (v : ν) (now : Nat)
    (hk : k ∉ c.keys) (hlen : c.entries.length < max) :
    c.set max k v now = (⟨CacheLine.mk k v now :: c.entries⟩, none) := by
  simp only [LRU.set, filter_key_eq_self c.entries k hk]
  rw [if_neg (show ¬ (CacheLine.mk k v now :: c.entries).length > max by
    simp only [List.length_cons]; omega)]

/-- Helper: inserting a fresh key at capacity evicts exactly the
least-recently-used line (the last of the recency list). -/
theorem set_fresh_evict {κ ν : Type} [DecidableEq κ] [DecidableEq ν]
    (c : LRU κ ν) (max : Nat) (k : κ) (v : ν) (now : Nat)
    (hk : k ∉ c.keys) (hlen : c.entries.length = max) (hmax : 1 ≤ max) :
    c.set max k v now =
      (⟨CacheLine.mk k v now :: c.entries.dropLast⟩, c.entries.getLast?) := by
  simp only [LRU.set, filter_key_eq_self c.entries k hk]
  rw [if_pos (show (CacheLine.mk k v now :: c.entries).length > max by
    simp only [List.length_cons]; omega)]
  cases hc : c.entries with
  | nil => rw [hc] at hlen; simp at hlen; omega
  | cons e es => rw [List.dropLast_cons₂, List.getLast?_cons_cons]

/-- Helper: `set` never grows the cache beyond its capacity. -/
theorem set_length_le {κ ν : Type} [DecidableEq κ] [DecidableEq ν]
    (c : LRU κ ν) (max : Nat) (k : κ) (v : ν) (now : Nat)
    (_hmax : 1 ≤ max) (h : c.entries.length ≤ max) :
    ((c.set max k v now).1).entries.length ≤ max := by
  simp only [LRU.set]
  split
  · simp only [List.length_dropLast, List.length_cons, Nat.add_sub_cancel]
    exact le_trans (List.length_filter_le _ _) h
  · rename_i hcond
    exact Nat.le_of_not_lt hcond

/-- Helper: after any `set`, the inserted line sits at the front. -/
theorem set_head {κ ν : Type} [DecidableEq κ] [DecidableEq ν]
    (c : LRU κ ν) (max : Nat) (k : κ) (v : ν) (now : Nat) (hmax : 1 ≤ max) :
    ∃ rest, ((c.set max k v now).1).entries = CacheLine.mk k v now :: rest := by
  simp only [LRU.set]
  split
  · rename_i hcond
    cases hf : c.entries.filter (·.key ≠ k) with
    | nil =>
        rw [hf] at hcond
        simp only [List.length_cons, List.length_nil] at hcond
        omega
    | cons e es => exact ⟨(e :: es).dropLast, by rw [List.dropLast_cons₂]⟩
  · exact ⟨c.entries.filter (·.key ≠ k), rfl⟩

/-- Helper: a `get` of the key just `set`, within the ttl, hits and returns
the stored value. -/
theorem get_after_set {κ ν : Type} [DecidableEq κ] [DecidableEq ν]
    (c : LRU κ ν) (max ttl : Nat) (k : κ) (v : ν) (now now2 : Nat)
    (hmax : 1 ≤ max) (httl : now2 < now + ttl) :
    (((c.set max k v now).1).get ttl k now2).2 = some v := by
  obtain ⟨rest, hr⟩ := set_head c max k v now hmax
  have hfind : ((c.set max k v now).1).entries.find? (·.key = k) =
      some (CacheLine.mk k v now) := by
    rw [hr]
    exact List.find?_cons_of_pos _ (by simp)
  simp only [LRU.get, hfind]
  rw [if_pos (show now2 < (CacheLine.mk k v now).storedAt + ttl from httl)]

/-- Helper: loading from a parsed disk file folds the insertions over
exactly the entries whose expiry is strictly in the future. -/
theorem load_some_eq_filter {κ ν : Type} [DecidableEq κ] [DecidableEq ν]
    (es : List (κ × DiskEntry ν)) (c : LRU κ ν) (now max : Nat) :
    loadPersistentCache (some es) c now max =
      (es.filter (fun kv => kv.2.expires > now)).foldl
        (fun acc kv => (acc.set max kv.1 kv.2.value now).1) c := by
  induction es generalizing c with
  | nil => rfl
  | cons kv tl ih =>
      have hstep : loadPersistentCache (some (kv :: tl)) c now max =
          loadPersistentCache (some tl)
            (if kv.2.expires > now then (c.set max kv.1 kv.2.value now).1
             else c) now max := by
        simp only [loadPersistentCache, List.foldl_cons]
      by_cases h : kv.2.expires > now
      · rw [hstep, if_pos h, ih,
          @List.filter_cons_of_pos _ (fun kv => decide (kv.2.expires > now))
            kv tl (decide_eq_true h),
          List.foldl_cons]
      · rw [hstep, if_neg h, ih,
          @List.filter_cons_of_neg _ (fun kv => decide (kv.2.expires > now))
            kv tl (by simpa using h)]

/-- Helper: loading never grows the cache beyond its capacity. -/
theorem load_length_le {κ ν : Type} [DecidableEq κ] [DecidableEq ν]
    (d : Disk κ ν) (c : LRU κ ν) (now max : Nat)
    (hmax : 1 ≤ max) (h : c.entries.length ≤ max) :
    (loadPersistentCache d c now max).entries.length ≤ max := by
  cases d with
  | none => exact h
  | some es =>
      induction es generalizing c with
      | nil => exact h
      | cons kv tl ih =>
          have hstep : loadPersistentCache (some (kv :: tl)) c now max =
              loadPersistentCache (some tl)
                (if kv.2.expires > now then (c.set max kv.1 kv.2.value now).1
                 else c) now max := by
            simp only [loadPersistentCache, List.foldl_cons]
          rw [hstep]
          by_cases hkv : kv.2.expires > now
          · rw [if_pos hkv]
            exact ih _ (set_length_le _ _ _ _ _ hmax h)
          · rw [if_neg hkv]
            exact ih _ h
    
/-- Helper: folding fresh, distinct-keyed insertions with room to spare
prepends the lines in reverse order, evicting nothing. -/
theorem load_fold_fresh {κ ν : Type} [DecidableEq κ] [DecidableEq ν]
    (now max : Nat) :
    ∀ (es : List (κ × DiskEntry ν)) (c : LRU κ ν),
      (es.map Prod.fst).Nodup →
      (∀ x ∈ es.map Prod.fst, x ∉ c.keys) →
      c.entries.length + es.length ≤ max →
      (es.foldl (fun acc kv => (acc.set max kv.1 kv.2.value now).1) c).entries
        = (es.reverse.map (fun kv => CacheLine.mk kv.1 kv.2.value now))
            ++ c.entries := by
  intro es
  induction es with
  | nil => intro c _ _ _; simp
  | cons kv tl ih =>
      intro c hnd hdisj hlen
      simp only [List.foldl_cons]
      have hk : kv.1 ∉ c.keys := hdisj kv.1 (by simp)
      have hset := set_fresh_no_evict c max kv.1 kv.2.value now hk
        (by simp at hlen; omega)
      have hrec := ih ((c.set max kv.1 kv.2.value now).1)
        (by simpa using hnd.of_cons)
        (by
          intro x hx
          rw [hset]
          simp only [LRU.keys, List.map_cons, List.mem_cons]
          rintro (hx1 | hx2)
          · have : x ≠ kv.1 := by
              have := hnd
              simp only [List.map_cons, List.nodup_cons] at this
              exact fun he => this.1 (he ▸ hx)
            exact this hx1
          · exact hdisj x (List.mem_cons_of_mem _ hx) hx2)
        (by rw [hset]; simp at hlen ⊢; omega)
      rw [hrec, hset]
      simp

/-- Helper: the lines of a cache whose entries were all stored at the
persisting instant are all live. -/
theorem valid_of_stored_now {κ ν : Type} [DecidableEq κ] [DecidableEq ν]
    (c : LRU κ ν) (ttl now : Nat) (httl : 1 ≤ ttl)
    (h : ∀ e ∈ c.entries, e.storedAt = now) :
    c.valid ttl now = c.entries := by
  refine List.filter_eq_self.mpr ?_
  intro e he
  exact decide_eq_true (by rw [h e he]; omega)

/-- Helper: a cache line found by key among lines missing that key is
impossible. -/
theorem find_key_eq_none {κ ν : Type} [DecidableEq κ]
    (l : List (CacheLine κ ν)) (k : κ) (h : k ∉ l.map (·.key)) :
    l.find? (·.key = k) = none := by
  refine List.find?_eq_none.mpr ?_
  intro e he
  simp only [decide_eq_true_eq]
  exact fun heq => h (heq ▸ List.mem_map_of_mem _ he)

/-- Helper: after a disk upsert, the key is present on disk. -/
theorem mem_diskUpsert_self {κ ν : Type} [DecidableEq κ]
    (d : List (κ × DiskEntry ν)) (k : κ) (e : DiskEntry ν) :
    k ∈ (diskUpsert d k e).map Prod.fst := by
  unfold diskUpsert
  split
  · rename_i h
    rcases List.any_eq_true.mp h with ⟨q, hq, hqk⟩
    rw [List.map_map]
    refine List.mem_map.mpr ⟨q, hq, ?_⟩
    simp [of_decide_eq_true hqk]
  · simp

/-! ## C4 — what eviction does, layer by layer -/

/-- The spec scenario cache: capacity 2, after set(a,1), set(b,2), get(a)
(which marks a recently used). -/
def demoCacheAB : LRU String Nat :=
  ((((LRU.empty String Nat).set 2 "a" 1 10).1.set 2 "b" 2 11).1.get
    ttl24 "a" 12).1

/-- C4 counterexample: in the spec scenario, set(c,3) on the provider-layer
cache evicts exactly the least-recently-used line b — as claimed — but the
disk file then written by the fire-and-forget `savePersistentCache` holds
only c and a: the evicted entry is dropped without being persisted, because
the provider-layer cache is constructed without a dispose callback. -/
theorem cache_eviction_cex :
    (demoCacheAB.set 2 "c" 3 13).2 = some (CacheLine.mk "b" 2 11) ∧
    (demoCacheAB.set 2 "c" 3 13).1.keys = ["c", "a"] ∧
    ((hfCacheSetAndPersist demoCacheAB 2 "c" 3 13).2.2).map Prod.fst
      = ["c", "a"] ∧
    "b" ∉ ((hfCacheSetAndPersist demoCacheAB 2 "c" 3 13).2.2).map Prod.fst := by
  refine ⟨by decide, by decide, by decide, by decide⟩

/-- C4 (amended): when a `set` of a fresh key exceeds the capacity, exactly
the least-recently-used entry is evicted; the AIEnhancer-layer cache (whose
LRU has a dispose callback) persists that evicted entry to disk as it is
dropped, but the provider-layer (HuggingFace) cache has no dispose
callback: the evicted entry is not written — the overwrite of the disk file
that follows the `set` contains every key of the new cache contents except
the evicted one. -/
theorem cache_eviction_correct {κ ν : Type} [DecidableEq κ] [DecidableEq ν]
    (c : LRU κ ν) (max : Nat) (k : κ) (v : ν) (now : Nat) (disk : Disk κ ν)
    (hlen : c.entries.length = max) (hmax : 1 ≤ max) (hk : k ∉ c.keys)
    (hnd : c.keys.Nodup) :
    ∃ lru, c.entries.getLast? = some lru ∧
      c.set max k v now =
        (⟨CacheLine.mk k v now :: c.entries.dropLast⟩, some lru) ∧
      enhancerCacheSet c disk max k v now =
        ((c.set max k v now).1,
          some (saveCacheEntry disk lru.key lru.value now)) ∧
      lru.key ∈ (saveCacheEntry disk lru.key lru.value now).map Prod.fst ∧
      lru.key ∉ ((hfCacheSetAndPersist c max k v now).2.2).map Prod.fst := by
  have hne : c.entries ≠ [] := by
    intro h0
    rw [h0] at hlen
    simp at hlen
    omega
  refine ⟨c.entries.getLast hne, List.getLast?_eq_getLast c.entries hne, ?_⟩
  have hlast : c.entries.getLast? = some (c.entries.getLast hne) :=
    List.getLast?_eq_getLast c.entries hne
  have hset := set_fresh_evict c max k v now hk hlen hmax
  rw [hlast] at hset
  refine ⟨hset, ?_, mem_diskUpsert_self _ _ _, ?_⟩
  · simp only [enhancerCacheSet, hset, saveCacheEntry]
  · -- the provider-layer persist excludes the evicted key
    have hdecomp : c.entries.dropLast ++ [c.entries.getLast hne] = c.entries :=
      List.dropLast_append_getLast hne
    have hkeyne : (c.entries.getLast hne).key ≠ k := by
      intro he
      exact hk (he ▸ List.mem_map_of_mem _ (List.getLast_mem hne))
    have hnotdrop : (c.entries.getLast hne).key ∉
        c.entries.dropLast.map (·.key) := by
      have hnd2 : ((c.entries.dropLast ++ [c.entries.getLast hne]).map
          (·.key)).Nodup := by
        rw [hdecomp]
        exact hnd
      rw [List.map_append] at hnd2
      rcases List.nodup_append.mp hnd2 with ⟨_, _, hdisj⟩
      intro hmem
      exact hdisj hmem (by simp)
    intro hmem
    simp only [hfCacheSetAndPersist, hset, savePersistentCache] at hmem
    rcases List.mem_map.mp hmem with ⟨pr, hpr, hfst⟩
    rcases List.mem_map.mp hpr with ⟨e, he, rfl⟩
    have he2 := List.mem_filter.mp he |>.1
    rcases List.mem_cons.mp he2 with he3 | he3
    · rw [he3] at hfst
      exact hkeyne hfst.symm
    · exact hnotdrop (hfst ▸ List.mem_map_of_mem _ he3)

/-- Witness for C4: the amended theorem evaluated on the spec scenario
cache at capacity 2 with a fresh key c. -/
theorem cache_eviction_correct_witness :
    ∃ lru, demoCacheAB.entries.getLast? = some lru ∧
      demoCacheAB.set 2 "c" 3 13 =
        (⟨CacheLine.mk "c" 3 13 :: demoCacheAB.entries.dropLast⟩, some lru) ∧
      enhancerCacheSet demoCacheAB (none : Disk String Nat) 2 "c" 3 13 =
        ((demoCacheAB.set 2 "c" 3 13).1,
          some (saveCacheEntry none lru.key lru.value 13)) ∧
      lru.key ∈ (saveCacheEntry (none : Disk String Nat) lru.key lru.value 13).map
        Prod.fst ∧
      lru.key ∉ ((hfCacheSetAndPersist demoCacheAB 2 "c" 3 13).2.2).map
        Prod.fst :=
  cache_eviction_correct demoCacheAB 2 "c" 3 13 none (by decide) (by decide)
    (by decide) (by decide)

/-! ## C9 — loading the persistent cache -/

/-- C9: `loadPersistentCache` is a total function of the disk state — the
enclosing try/catch swallows every error, so the model returns a cache for
every disk value. A missing or corrupt file (`none`) leaves the provider
with its empty starting cache; a parsed file inserts exactly the entries
whose expiry is strictly in the future, and (for distinct keys fitting the
capacity) the loaded cache holds exactly those (key, value) pairs. -/
theorem load_from_disk_correct {κ ν : Type} [DecidableEq κ] [DecidableEq ν] :
    (∀ (c : LRU κ ν) (now max : Nat),
      loadPersistentCache none c now max = c) ∧
    (∀ (es : List (κ × DiskEntry ν)) (c : LRU κ ν) (now max : Nat),
      loadPersistentCache (some es) c now max =
        (es.filter (fun kv => kv.2.expires > now)).foldl
          (fun acc kv => (acc.set max kv.1 kv.2.value now).1) c) ∧
    (∀ (es : List (κ × DiskEntry ν)) (now : Nat),
      (es.map Prod.fst).Nodup →
      (es.filter (fun kv => kv.2.expires > now)).length ≤ hfCacheMax →
      (loadPersistentCache (some es) (LRU.empty κ ν) now hfCacheMax).entries.map
          (fun e => (e.key, e.value)) =
        (es.filter (fun kv => kv.2.expires > now)).reverse.map
          (fun kv => (kv.1, kv.2.value))) := by
  refine ⟨fun c now max => rfl, fun es c now max => load_some_eq_filter es c now max, ?_⟩
  intro es now hnd hlen
  rw [load_some_eq_filter]
  have hsub : List.Sublist
      ((es.filter (fun kv => kv.2.expires > now)).map Prod.fst)
      (es.map Prod.fst) :=
    (List.filter_sublist es).map Prod.fst
  have hfold := load_fold_fresh now hfCacheMax
    (es.filter (fun kv => kv.2.expires > now)) (LRU.empty κ ν)
    (hnd.sublist hsub)
    (by intro x _ hx; simp [LRU.empty, LRU.keys] at hx)
    (by simpa [LRU.empty] using hlen)
  rw [hfold]
  simp [LRU.empty]

/-- Witness for C9: the theorem evaluated on a concrete two-entry disk file
at instant 0, where one entry is expired: exactly the live entry is
loaded; and on the missing-file case. -/
theorem load_from_disk_correct_witness :
    loadPersistentCache none (LRU.empty Nat Nat) 0 hfCacheMax =
      LRU.empty Nat Nat ∧
    (loadPersistentCache (some [(7, DiskEntry.mk 5 10), (8, DiskEntry.mk 6 0)])
        (LRU.empty Nat Nat) 0 hfCacheMax).entries.map (fun e => (e.key, e.value))
      = [(7, 5)] := by
  constructor
  · exact load_from_disk_correct.1 (LRU.empty Nat Nat) 0 hfCacheMax
  · rw [load_from_disk_correct.2.2 [(7, DiskEntry.mk 5 10), (8, DiskEntry.mk 6 0)]
      0 (by decide) (by decide)]
    decide

/-! ## C5 — persist stamps fresh expiries; persist after load -/

/-- A disk file with 1001 distinct, un-expired entries — one more than the
cache capacity. -/
def bigDisk : List (Nat × DiskEntry Nat) :=
  (List.range 1001).map (fun i => (i, DiskEntry.mk 0 1))

/-- C5 counterexample: loading `bigDisk` (1001 live entries) and
immediately persisting writes back at most 1000 entries — strictly fewer
than were loaded, so the loaded set is not preserved: an entry is lost
through LRU eviction during the load. -/
theorem persist_roundtrip_cex :
    (savePersistentCache
        (loadPersistentCache (some bigDisk) (LRU.empty Nat Nat) 0 hfCacheMax)
        0).length
      < (bigDisk.filter (fun kv => kv.2.expires > 0)).length := by
  have h1 : (bigDisk.filter (fun kv => kv.2.expires > 0)).length = 1001 := by
    have hall : bigDisk.filter (fun kv => kv.2.expires > 0) = bigDisk := by
      refine List.filter_eq_self.mpr ?_
      intro kv hkv
      rcases List.mem_map.mp hkv with ⟨i, _, rfl⟩
      rfl
    rw [hall]
    simp [bigDisk]
  have h2 : (loadPersistentCache (some bigDisk) (LRU.empty Nat Nat) 0
      hfCacheMax).entries.length ≤ hfCacheMax :=
    load_length_le _ _ _ _ (by decide) (by simp [LRU.empty])
  have h3 : (savePersistentCache
      (loadPersistentCache (some bigDisk) (LRU.empty Nat Nat) 0 hfCacheMax)
      0).length ≤ (loadPersistentCache (some bigDisk) (LRU.empty Nat Nat) 0
      hfCacheMax).entries.length := by
    simp only [savePersistentCache, List.length_map, LRU.valid]
    exact List.length_filter_le _ _
  have hle := le_trans h3 h2
  have h4 : hfCacheMax = 1000 := rfl
  rw [h1]
  omega

/-- C5 (amended): every entry written by `savePersistentCache` is stamped
`expires = now + 24h` from the save-time clock; and for a disk file with
distinct keys whose live entries fit the capacity (at most 1000),
load-then-persist writes back exactly the loaded (key, value) pairs — in
reversed order, each with the refreshed expiry — with none duplicated or
lost. -/
theorem persist_roundtrip_correct {κ ν : Type} [DecidableEq κ] [DecidableEq ν] :
    (∀ (c : LRU κ ν) (now : Nat), ∀ e ∈ savePersistentCache c now,
      e.2.expires = now + ttl24) ∧
    (∀ (es : List (κ × DiskEntry ν)) (now : Nat),
      (es.map Prod.fst).Nodup →
      (es.filter (fun kv => kv.2.expires > now)).length ≤ hfCacheMax →
      savePersistentCache
          (loadPersistentCache (some es) (LRU.empty κ ν) now hfCacheMax) now =
        (es.filter (fun kv => kv.2.expires > now)).reverse.map
          (fun kv => (kv.1, DiskEntry.mk kv.2.value (now + ttl24)))) := by
  constructor
  · intro c now e he
    rcases List.mem_map.mp he with ⟨a, _, rfl⟩
    rfl
  · intro es now hnd hlen
    rw [load_some_eq_filter]
    have hsub : List.Sublist
        ((es.filter (fun kv => kv.2.expires > now)).map Prod.fst)
        (es.map Prod.fst) :=
      (List.filter_sublist es).map Prod.fst
    have hfold := load_fold_fresh now hfCacheMax
      (es.filter (fun kv => kv.2.expires > now)) (LRU.empty κ ν)
      (hnd.sublist hsub)
      (by intro x _ hx; simp [LRU.empty, LRU.keys] at hx)
      (by simpa [LRU.empty] using hlen)
    have hstored : ∀ e ∈ ((es.filter (fun kv => kv.2.expires > now)).foldl
        (fun acc kv => (acc.set hfCacheMax kv.1 kv.2.value now).1)
        (LRU.empty κ ν)).entries, e.storedAt = now := by
      intro e he
      rw [hfold] at he
      simp only [LRU.empty, List.append_nil] at he
      rcases List.mem_map.mp he with ⟨kv, _, rfl⟩
      rfl
    simp only [savePersistentCache,
      valid_of_stored_now _ ttl24 now (by decide) hstored]
    rw [hfold]
    simp [LRU.empty]

/-- Witness for C5: the amended theorem evaluated on a concrete two-entry
disk file (one live entry, one expired) at instant 0. -/
theorem persist_roundtrip_correct_witness :
    savePersistentCache
        (loadPersistentCache (some [(7, DiskEntry.mk 5 10), (8, DiskEntry.mk 6 0)])
          (LRU.empty Nat Nat) 0 hfCacheMax) 0
      = [(7, DiskEntry.mk 5 (0 + ttl24))] := by
  rw [persist_roundtrip_correct.2 [(7, DiskEntry.mk 5 10), (8, DiskEntry.mk 6 0)]
    0 (by decide) (by decide)]
  decide

/-! ## C10 — the truncated cache key and cache reuse -/

/-- A hundred identical characters, the shared 100-character head of the
two counterexample prompts. -/
def hundredAs : String := String.mk (List.replicate 100 'a')

/-- First counterexample prompt: 100 shared characters then X. -/
def longPromptX : String := hundredAs ++ "X"

/-- Second counterexample prompt: 100 shared characters then Y. -/
def longPromptY : String := hundredAs ++ "Y"

/-- The provider state at startup: empty cache, zero counters. -/
def hfFreshState : HFState := ⟨LRU.empty HFKey String, Usage.mk 0 0 0, 0, 0⟩

set_option maxRecDepth 8192 in
/-- C10 counterexample: the two prompts differ but share their first 100
characters; the first call succeeds with the empty generated text (the
API returned ok with no text, which `complete` returns and caches), yet
the second call — same tier and options, within the TTL, without noCache —
issues the network call and returns the fresh network response instead of
the cached one: the empty cached string is falsy in the
`if (cached && !options.noCache)` test. -/
theorem cache_key_reuse_cex :
    longPromptX ≠ longPromptY ∧
    longPromptX.take 100 = longPromptY.take 100 ∧
    (hfComplete hfFreshState longPromptX ⟨none, none, none, false⟩ 0
        (Except.ok "")).result = Except.ok "" ∧
    (hfComplete (hfComplete hfFreshState longPromptX ⟨none, none, none, false⟩
        0 (Except.ok "")).state longPromptY ⟨none, none, none, false⟩ 10
        (Except.ok "fresh")).networkCalled = true ∧
    (hfComplete (hfComplete hfFreshState longPromptX ⟨none, none, none, false⟩
        0 (Except.ok "")).state longPromptY ⟨none, none, none, false⟩ 10
        (Except.ok "fresh")).result = Except.ok "fresh" := by
  refine ⟨by decide, by decide, by rfl, by decide, by rfl⟩

/-- C10 (amended): the cache key holds only the first 100 characters of the
prompt (with model id, temperature, maxTokens), so for two prompts agreeing
on their first 100 characters, a `complete` call for the second within the
TTL of a successful first call — same tier and options, no noCache —
returns the cached first response and issues no network call, provided the
cached response is non-empty (an empty cached string fails the JS
truthiness test and is treated as a miss). -/
theorem cache_key_reuse_correct
    (st : HFState) (p1 p2 : String) (opts : HFOptions) (now1 now2 : Nat)
    (text : String) (m : HFModel) (net2 : Except JsError String)
    (hm : hfModels (resolveHFTier opts) = some m)
    (hk : getCacheKey p1 m.id opts ∉ st.cache.keys)
    (hpfx : p1.take 100 = p2.take 100)
    (htext : text ≠ "") (hnc : opts.noCache = false)
    (httl : now2 < now1 + ttl24) :
    getCacheKey p2 m.id opts = getCacheKey p1 m.id opts ∧
    (hfComplete st p1 opts now1 (Except.ok text)).result = Except.ok text ∧
    (hfComplete st p1 opts now1 (Except.ok text)).networkCalled = true ∧
    (hfComplete (hfComplete st p1 opts now1 (Except.ok text)).state p2 opts
        now2 net2).result = Except.ok text ∧
    (hfComplete (hfComplete st p1 opts now1 (Except.ok text)).state p2 opts
        now2 net2).networkCalled = false := by
  have hkey : getCacheKey p2 m.id opts = getCacheKey p1 m.id opts := by
    simp [getCacheKey, hpfx]
  have hget1 : st.cache.get ttl24 (getCacheKey p1 m.id opts) now1 =
      (st.cache, none) := by
    simp [LRU.get, find_key_eq_none st.cache.entries _ hk]
  have h1 : hfComplete st p1 opts now1 (Except.ok text) =
      ⟨Except.ok text,
        ⟨(st.cache.set hfCacheMax (getCacheKey p1 m.id opts) text now1).1,
          trackUsage st.usage (estimateTokens p1 + estimateTokens text),
          st.hits, st.misses + 1⟩, true⟩ := by
    simp [hfComplete, hm, hget1, hfMissPath]
  rcases hg2 : ((st.cache.set hfCacheMax (getCacheKey p1 m.id opts) text
      now1).1).get ttl24 (getCacheKey p1 m.id opts) now2 with ⟨c2, cd⟩
  have hcd : cd = some text := by
    have hg := get_after_set st.cache hfCacheMax ttl24
      (getCacheKey p1 m.id opts) text now1 now2 (by decide) httl
    rw [hg2] at hg
    exact hg
  subst hcd
  refine ⟨hkey, by rw [h1], by rw [h1], ?_, ?_⟩
  · rw [h1]
    simp [hfComplete, hm, hkey, hg2, htext, hnc]
  · rw [h1]
    simp [hfComplete, hm, hkey, hg2, htext, hnc]

set_option maxRecDepth 8192 in
/-- Witness for C10: the amended theorem evaluated on the two long prompts
with a non-empty first response — the second call hits the cache and makes
no network call even though its network oracle would fail. -/
theorem cache_key_reuse_correct_witness :
    getCacheKey longPromptY "mistralai/Mixtral-8x7B-Instruct-v0.1"
        ⟨none, none, none, false⟩
      = getCacheKey longPromptX "mistralai/Mixtral-8x7B-Instruct-v0.1"
        ⟨none, none, none, false⟩ ∧
    (hfComplete hfFreshState longPromptX ⟨none, none, none, false⟩ 0
        (Except.ok "cached response")).result = Except.ok "cached response" ∧
    (hfComplete hfFreshState longPromptX ⟨none, none, none, false⟩ 0
        (Except.ok "cached response")).networkCalled = true ∧
    (hfComplete (hfComplete hfFreshState longPromptX ⟨none, none, none, false⟩
        0 (Except.ok "cached response")).state longPromptY
        ⟨none, none, none, false⟩ 10
        (Except.error ⟨"backend down", none⟩)).result =
      Except.ok "cached response" ∧
    (hfComplete (hfComplete hfFreshState longPromptX ⟨none, none, none, false⟩
        0 (Except.ok "cached response")).state longPromptY
        ⟨none, none, none, false⟩ 10
        (Except.error ⟨"backend down", none⟩)).networkCalled = false :=
  cache_key_reuse_correct hfFreshState longPromptX longPromptY
    ⟨none, none, none, false⟩ 0 10 "cached response"
    ⟨"mistralai/Mixtral-8x7B-Instruct-v0.1", 1024, 2000⟩
    (Except.error ⟨"backend down", none⟩) rfl
    (by simp [hfFreshState, LRU.keys, LRU.empty]) (by decide)
    (by decide) rfl (by decide)

end CPC
